import Mathlib

/-!
Shallow embedding of the matching/calibration engine in
`src/advanced_face_recognition.py` (class `AdvancedFaceRecognition`).

Conventions used throughout:
* Embeddings are rational vectors (`List ℚ`).  The external library call
  `face_recognition.face_distance` is abstracted as a parameter
  `d : Emb → Emb → ℚ`, and the standard-library call `statistics.stdev`
  as a parameter `sdev : List ℚ → ℚ`; the claims under study do not depend
  on their numeric values.
* Python floats are modelled as `ℚ`; the value `float("inf")` stored in the
  `distance` field of a result dict is modelled as `⊤ : WithTop ℚ`.
* JSON dicts are modelled as association lists in insertion order; dict
  membership / indexing is modelled by `lookupStudent` (first match).
* Logging, file I/O and the `try/except` wrappers around purely external
  failures are omitted; every remaining branch of the Python control flow
  is translated.
-/

/-- Embedding: a numeric face vector. -/
abbrev Emb := List ℚ

/-- Face location tuple `(top, right, bottom, left)` as produced by the
detector. -/
structure Loc where
  top : ℕ
  right : ℕ
  bottom : ℕ
  left : ℕ
  deriving DecidableEq, Repr

/-- Entry of `students.json`: the fields read by `load_encodings`.
`registration_date` and `role` are read with `dict.get` defaults, hence
optional. -/
structure Student where
  name : String
  registration_date : Option String
  role : Option String
  deriving DecidableEq, Repr

/-- Metadata record built per encoding in `load_encodings`
(lines 135-139 of `advanced_face_recognition.py`). -/
structure FaceMeta where
  registration_date : String
  role : String
  encoding_index : ℕ
  deriving DecidableEq, Repr, Inhabited

/-- Mutable attributes of `AdvancedFaceRecognition` that the embedded
methods read or write: the four parallel store lists, the thresholds, the
current detector model and the `recognition_stats` counters. -/
structure EngineState where
  known_encodings : List Emb
  known_names : List String
  known_rolls : List String
  known_metadata : List FaceMeta
  face_distance_threshold : ℚ
  confidence_threshold : ℚ
  quality_threshold : ℚ
  current_model : String
  total_attempts : ℕ
  successful_recognitions : ℕ
  false_positives : ℕ
  processing_times : List ℚ
  confidence_scores : List ℚ
  deriving DecidableEq, Repr

/-- Attribute defaults set in `__init__` (lines 32-52). -/
def initState : EngineState :=
  { known_encodings := [], known_names := [], known_rolls := [], known_metadata := [],
    face_distance_threshold := 2/5, confidence_threshold := 13/20, quality_threshold := 7/10,
    current_model := "hog", total_attempts := 0, successful_recognitions := 0,
    false_positives := 0, processing_times := [], confidence_scores := [] }

/-- Python dict lookup `students_data[roll]` guarded by
`roll in students_data`, modelled as first-match search in the
association list. -/
def lookupStudent (students : List (String × Student)) (roll : String) : Option Student :=
  (students.find? (fun p => p.1 == roll)).map (fun p => p.2)

/-- Inner loop `for i, encoding in enumerate(encodings_list)` of
`load_encodings` (lines 131-140): each iteration appends, in lockstep, an
encoding, a name, a roll and a metadata record to the four parallel lists;
here each iteration yields one 4-tuple row. -/
def metaRows (info : Student) (roll : String) : ℕ → List Emb → List (Emb × String × String × FaceMeta)
  | _, [] => []
  | i, e :: es =>
    (e, info.name, roll,
      { registration_date := info.registration_date.getD "unknown",
        role := info.role.getD "student",
        encoding_index := i }) :: metaRows info roll (i + 1) es

/-- Outer loop `for roll_number, encodings_list in encodings_data.items()`
of `load_encodings` (lines 127-140): entries whose roll is absent from
`students_data` contribute nothing. -/
def loadEntries (students : List (String × Student)) :
    List (String × List Emb) → List (Emb × String × String × FaceMeta)
  | [] => []
  | (roll, lst) :: rest =>
    (match lookupStudent students roll with
      | none => []
      | some info => metaRows info roll 0 lst) ++ loadEntries students rest

/-- Successful body of `load_encodings` (lines 114-140): the four parallel
lists are rebuilt from scratch; each row of `loadEntries` contributes its
components to the four lists at the same index.  (The auto-calibration
trigger at line 145 and all logging are outside the lists themselves.) -/
def load_encodings (enc : List (String × List Emb)) (students : List (String × Student))
    (st : EngineState) : EngineState :=
  { st with
    known_encodings := (loadEntries students enc).map (fun r => r.1),
    known_names := (loadEntries students enc).map (fun r => r.2.1),
    known_rolls := (loadEntries students enc).map (fun r => r.2.2.1),
    known_metadata := (loadEntries students enc).map (fun r => r.2.2.2) }

/-- Exception path of `load_encodings` (lines 151-156): all four lists are
reset to empty. -/
def errorLoadState (st : EngineState) : EngineState :=
  { st with known_encodings := [], known_names := [], known_rolls := [], known_metadata := [] }

/-- Minimum of a list of rationals (value of `np.min` on a non-empty
array; the `[]` case is never reached by the callers below). -/
def listMin : List ℚ → ℚ
  | [] => 0
  | [x] => x
  | x :: y :: ys => min x (listMin (y :: ys))

/-- Index of the first occurrence of the minimum, the value of
`np.argmin` on a non-empty array. -/
def argminFirst : List ℚ → ℕ
  | [] => 0
  | [_] => 0
  | x :: y :: ys => if x ≤ listMin (y :: ys) then 0 else argminFirst (y :: ys) + 1

/-- Value of `statistics.mean`. -/
def listMean (l : List ℚ) : ℚ := l.sum / (l.length : ℚ)

/-- Python slice `l[-n:]` for a list of length at least `n`. -/
def lastN (n : ℕ) (l : List α) : List α := l.drop (l.length - n)

/-- Ordered pairs `(l[i], l[j])` with `i < j`, in the order produced by
the nested loops `for i in range(n): for j in range(i+1, n)`. -/
def pairsUpper : List α → List (α × α)
  | [] => []
  | x :: xs => xs.map (fun y => (x, y)) ++ pairsUpper xs

/-- One step of building `person_encodings` (a `defaultdict(list)` filled
in `for i, roll in enumerate(self.known_rolls)` order, lines 172-174):
append the encoding to the existing group of `roll`, or start a new group
at the end (dict insertion order). -/
def insertEnc (acc : List (String × List Emb)) (roll : String) (e : Emb) :
    List (String × List Emb) :=
  if acc.any (fun p => p.1 == roll) then
    acc.map (fun p => if p.1 == roll then (p.1, p.2 ++ [e]) else p)
  else acc ++ [(roll, [e])]

/-- The grouping `person_encodings` of `auto_calibrate` (lines 172-174). -/
def groupByRoll (rolls : List String) (encs : List Emb) : List (String × List Emb) :=
  (List.zip rolls encs).foldl (fun acc p => insertEnc acc p.1 p.2) []

/-- Intra-class distances of `auto_calibrate` (lines 176-182): for every
identity with more than one embedding, all pairwise distances within its
group, in loop order. -/
def intraDistances (d : Emb → Emb → ℚ) (st : EngineState) : List ℚ :=
  ((groupByRoll st.known_rolls st.known_encodings).map (fun g =>
    if g.2.length > 1 then (pairsUpper g.2).map (fun p => d p.1 p.2) else [])).flatten

/-- Inter-class distances of `auto_calibrate` (lines 184-191): for every
pair of distinct identities, distances between the first two embeddings of
each group (`[:2]`), in loop order. -/
def interDistances (d : Emb → Emb → ℚ) (st : EngineState) : List ℚ :=
  ((pairsUpper (groupByRoll st.known_rolls st.known_encodings)).map (fun g =>
    ((g.1.2.take 2).map (fun e1 => (g.2.2.take 2).map (fun e2 => d e1 e2))).flatten)).flatten

/-- Outcome of an `auto_calibrate` call: either the thresholds were
recomputed, or the call returned without touching them (the warning for
fewer than 5 encodings at lines 162-164, and the silently skipped update
when either distance list is empty at line 193). -/
inductive CalibOutcome
  | insufficientData
  | calibrated
  deriving DecidableEq, Repr

/-- Method `auto_calibrate` (lines 158-218).  `sdev` abstracts
`statistics.stdev`. -/
def auto_calibrate (sdev : List ℚ → ℚ) (d : Emb → Emb → ℚ) (st : EngineState) :
    EngineState × CalibOutcome :=
  if st.known_encodings.length < 5 then (st, .insufficientData)
  else
    let intra := intraDistances d st
    let inter := interDistances d st
    if intra ≠ [] ∧ inter ≠ [] then
      let avgIntra := listMean intra
      let stdIntra := if intra.length > 1 then sdev intra else 1/10
      let optimalThreshold := avgIntra + 2 * stdIntra
      let thr := max (3/10) (min (6/10) optimalThreshold)
      ({ st with face_distance_threshold := thr,
                 confidence_threshold := 1 - thr - 1/10 }, .calibrated)
    else (st, .insufficientData)

/-- Per-face result dict of `recognize_faces` (lines 323-332).  The
`quality` entry is omitted: it is attached only when `return_quality` is
set, is computed from the raw frame by external `cv2` calls, and never
influences the matching decision or the counters. -/
structure RecogResult where
  face_id : ℕ
  location : Loc
  recognized : Bool
  name : String
  roll_number : Option String
  confidence : ℚ
  distance : WithTop ℚ
  metadata : Option FaceMeta
  deriving DecidableEq, Repr

/-- Initial value of the result dict (lines 323-332): unmatched, name
`"Unknown"`, no roll, confidence 0, distance `float("inf")`, empty
metadata. -/
def defaultResult (i : ℕ) (loc : Loc) : RecogResult :=
  { face_id := i, location := loc, recognized := false, name := "Unknown",
    roll_number := none, confidence := 0, distance := ⊤, metadata := none }

/-- Local `face_distances` of `recognize_faces` (line 345): distance from
the query embedding to every stored embedding, in store order. -/
def face_distances (d : Emb → Emb → ℚ) (st : EngineState) (q : Emb) : List ℚ :=
  st.known_encodings.map (fun e => d e q)

/-- Local `best_match_index` (line 348): `np.argmin(face_distances)`. -/
def best_match_index (d : Emb → Emb → ℚ) (st : EngineState) (q : Emb) : ℕ :=
  argminFirst (face_distances d st q)

/-- Local `best_distance` (line 349): `face_distances[best_match_index]`. -/
def best_distance (d : Emb → Emb → ℚ) (st : EngineState) (q : Emb) : ℚ :=
  (face_distances d st q).getD (best_match_index d st q) 0

/-- Matching of one query embedding against the store (lines 343-373):
distances to every stored embedding, `np.argmin` best index, confidence
`1 - best_distance`, and the two acceptance gates.  On acceptance the
success counter and the confidence samples are updated; on rejection the
result dict keeps its initial unmatched values. -/
def recognizeOne (d : Emb → Emb → ℚ) (st : EngineState) (i : ℕ) (q : Emb) (loc : Loc) :
    EngineState × RecogResult :=
  if st.known_encodings.length > 0 then
    if best_distance d st q ≤ st.face_distance_threshold ∧
        1 - best_distance d st q ≥ st.confidence_threshold then
      ({ st with successful_recognitions := st.successful_recognitions + 1,
                 confidence_scores := st.confidence_scores ++ [1 - best_distance d st q] },
       { face_id := i, location := loc, recognized := true,
         name := st.known_names.getD (best_match_index d st q) "",
         roll_number := some (st.known_rolls.getD (best_match_index d st q) ""),
         confidence := 1 - best_distance d st q,
         distance := (best_distance d st q : WithTop ℚ),
         metadata := st.known_metadata[best_match_index d st q]? })
    else (st, defaultResult i loc)
  else (st, defaultResult i loc)

/-- Loop `for i, (face_encoding, face_location) in enumerate(...)`
(lines 322-373), threading the engine state through the per-face
matching. -/
def processFaces (d : Emb → Emb → ℚ) (st : EngineState) (i : ℕ) :
    List (Emb × Loc) → EngineState × List RecogResult
  | [] => (st, [])
  | (q, loc) :: rest =>
    let step := recognizeOne d st i q loc
    let restOut := processFaces d step.1 (i + 1) rest
    (restOut.1, step.2 :: restOut.2)

/-- Method `recognize_faces` (lines 300-385).  The external detection and
encoding calls are abstracted: `faces` is the zipped list of
`(face_encoding, face_location)` pairs delivered by `face_recognition`,
and `elapsed` the wall-clock duration measured at line 376.  The attempt
counter is incremented first (line 303); with no detected faces the
function returns `[]` early (lines 314-315) before the processing time is
appended (line 377). -/
def recognize_faces (d : Emb → Emb → ℚ) (st : EngineState)
    (faces : List (Emb × Loc)) (elapsed : ℚ) : EngineState × List RecogResult :=
  let st1 := { st with total_attempts := st.total_attempts + 1 }
  if faces = [] then (st1, [])
  else
    let out := processFaces d st1 0 faces
    ({ out.1 with processing_times := out.1.processing_times ++ [elapsed] }, out.2)

/-- Derived field `recognition_rate` of `get_performance_stats`
(lines 401-408). -/
def recognition_rate (st : EngineState) : ℚ :=
  if st.total_attempts > 0 then
    (st.successful_recognitions : ℚ) / (st.total_attempts : ℚ)
  else 0

/-- Method `adaptive_model_selection` (lines 387-399): every 100 frames,
and only with strictly more than 10 recorded processing times, the mean of
the last 10 drives the hog/cnn switch. -/
def adaptive_model_selection (frame_count : ℕ) (st : EngineState) : EngineState :=
  if frame_count % 100 = 0 ∧ st.processing_times.length > 10 then
    let avg := listMean (lastN 10 st.processing_times)
    if avg > 1/2 ∧ st.current_model == "cnn" then { st with current_model := "hog" }
    else if avg < 1/5 ∧ st.current_model == "hog" then { st with current_model := "cnn" }
    else st
  else st

/-- Metric scores computed by `assess_image_quality` (lines 252-292). -/
structure QMetrics where
  size_score : ℚ
  blur_score : ℚ
  brightness_score : ℚ
  orientation_score : ℚ
  deriving DecidableEq, Repr

/-- Return dict of `assess_image_quality`: on the empty-region early
return (line 250) no `metrics` key is present, modelled by `none`. -/
structure QReport where
  overall_score : ℚ
  metrics : Option QMetrics
  issues : List String
  deriving DecidableEq, Repr

/-- Height of the crop `image[top:bottom, left:right]` of an image with
`imgH` rows (Python slice clipping, non-negative indices). -/
def cropH (imgH top bottom : ℕ) : ℕ := min bottom imgH - min top imgH

/-- Width of the crop for an image with `imgW` columns. -/
def cropW (imgW left right : ℕ) : ℕ := min right imgW - min left imgW

/-- Method `assess_image_quality` (lines 244-298).  `blurVar` abstracts
the Laplacian variance of the grayscale crop (line 267) and `brightness`
its mean intensity (line 273), both produced by external `cv2`/`numpy`
calls; the thresholds are the `__init__` defaults (min 50×50, max 500×500,
blur threshold 100, brightness range 50-200). -/
def assess_image_quality (blurVar brightness : ℚ) (imgH imgW : ℕ) (loc : Loc) : QReport :=
  let fh := cropH imgH loc.top loc.bottom
  let fw := cropW imgW loc.left loc.right
  if fh * fw = 0 then
    { overall_score := 0, metrics := none, issues := ["Empty face region"] }
  else
    let sizeScore : ℚ := if fw < 50 ∨ fh < 50 then 3/10
      else if fw > 500 ∨ fh > 500 then 7/10 else 1
    let sizeIssues : List String := if fw < 50 ∨ fh < 50 then ["Face too small"]
      else if fw > 500 ∨ fh > 500 then ["Face too large"] else []
    let blurScore : ℚ := min 1 (blurVar / 100)
    let blurIssues : List String := if blurVar < 50 then ["Image too blurry"] else []
    let brightScore : ℚ := if brightness < 50 then 2/5
      else if brightness > 200 then 3/5 else 1
    let brightIssues : List String := if brightness < 50 then ["Image too dark"]
      else if brightness > 200 then ["Image too bright"] else []
    let overall := sizeScore * (3/10) + blurScore * (2/5) + brightScore * (1/5) + 1 * (1/10)
    { overall_score := overall,
      metrics := some { size_score := sizeScore, blur_score := blurScore,
                        brightness_score := brightScore, orientation_score := 1 },
      issues := sizeIssues ++ blurIssues ++ brightIssues }

/-! ### Concrete instances used in the closing theorems -/

/-- Distance function used in concrete instances: squared difference of
the first coordinates. -/
def dSq : Emb → Emb → ℚ := fun a b => (a.headD 0 - b.headD 0) ^ 2

/-- Constant distance 1, used in concrete calibration instances. -/
def dOne : Emb → Emb → ℚ := fun _ _ => 1

/-- Constant distance 0: every query is a perfect match. -/
def dZero : Emb → Emb → ℚ := fun _ _ => 0

/-- Constant standard deviation 0, instantiating the abstracted
`statistics.stdev`. -/
def sdevZ : List ℚ → ℚ := fun _ => 0

/-- A face location used in concrete instances. -/
def locW : Loc := { top := 0, right := 10, bottom := 10, left := 0 }

/-- A metadata record used in concrete instances. -/
def metaW : FaceMeta := { registration_date := "unknown", role := "student", encoding_index := 0 }

/-- Store with two known identities at embeddings `[0]` and `[1]`. -/
def stMatch : EngineState :=
  { initState with
    known_encodings := [[0], [1]],
    known_names := ["A", "B"],
    known_rolls := ["1", "2"],
    known_metadata := [metaW, { metaW with encoding_index := 1 }] }

/-- Store with a single known identity at embedding `[0]`. -/
def stSingle : EngineState :=
  { initState with
    known_encodings := [[0]],
    known_names := ["A"],
    known_rolls := ["1"],
    known_metadata := [metaW] }

/-- Store with five encodings over two identities, enough for
calibration. -/
def stCal : EngineState :=
  { initState with
    known_encodings := [[0], [0], [0], [1], [1]],
    known_names := ["A", "A", "A", "B", "B"],
    known_rolls := ["1", "1", "1", "2", "2"] }

/-- Engine in cnn mode with exactly 10 recorded processing times, each
0.6 seconds. -/
def stTen : EngineState :=
  { initState with
    current_model := "cnn",
    processing_times := [3/5, 3/5, 3/5, 3/5, 3/5, 3/5, 3/5, 3/5, 3/5, 3/5] }

/-- Engine in cnn mode with 11 recorded processing times, each 0.6
seconds. -/
def stEleven : EngineState :=
  { initState with
    current_model := "cnn",
    processing_times := [3/5, 3/5, 3/5, 3/5, 3/5, 3/5, 3/5, 3/5, 3/5, 3/5, 3/5] }

/-- Encodings file with one roll owning embeddings of different
lengths. -/
def encMix : List (String × List Emb) := [("1", [[1, 2, 3], [4, 5]])]

/-- Students file matching `encMix`. -/
def studentsMix : List (String × Student) :=
  [("1", { name := "Alice", registration_date := none, role := none })]

/-- Encodings file with one registered roll and one unregistered roll. -/
def encW : List (String × List Emb) := [("1", [[0], [1]]), ("9", [[2]])]

/-- Students file containing only roll `"1"`. -/
def studentsW : List (String × Student) :=
  [("1", { name := "Alice", registration_date := some "2024-01-01", role := none })]

/-! ### Helper lemmas -/

theorem listMin_le_getD : ∀ (l : List ℚ) (k : ℕ), k < l.length → listMin l ≤ l.getD k 0
  | [], k, hk => absurd hk (by simp)
  | [x], k, hk => by
      have hk0 : k = 0 := by simpa using hk
      subst hk0; simp [listMin]
  | x :: y :: ys, 0, _ => by
      simp [listMin]
  | x :: y :: ys, (k+1), hk => by
      have ih := listMin_le_getD (y :: ys) k (by simpa using hk)
      simp only [listMin, List.getD_cons_succ]
      exact le_trans (min_le_right _ _) ih

theorem argminFirst_lt_length : ∀ (l : List ℚ), l ≠ [] → argminFirst l < l.length
  | [], h => absurd rfl h
  | [_], _ => by simp [argminFirst]
  | x :: y :: ys, _ => by
      by_cases hx : x ≤ listMin (y :: ys)
      · simp [argminFirst, hx]
      · have ih : argminFirst (y :: ys) < ys.length + 1 := by
          simpa using argminFirst_lt_length (y :: ys) (by simp)
        simp only [argminFirst, if_neg hx, List.length_cons]
        omega

theorem getD_argminFirst : ∀ (l : List ℚ), l ≠ [] → l.getD (argminFirst l) 0 = listMin l
  | [], h => absurd rfl h
  | [x], _ => by simp [argminFirst, listMin]
  | x :: y :: ys, _ => by
      by_cases hx : x ≤ listMin (y :: ys)
      · simp [argminFirst, hx, listMin, min_eq_left hx]
      · have ih := getD_argminFirst (y :: ys) (by simp)
        push_neg at hx
        simp only [argminFirst, if_neg (not_le.mpr hx), List.getD_cons_succ, ih, listMin]
        exact (min_eq_right (le_of_lt hx)).symm

theorem listMin_lt_getD_of_lt_argmin :
    ∀ (l : List ℚ) (k : ℕ), k < argminFirst l → listMin l < l.getD k 0
  | [], k, hk => by simp [argminFirst] at hk
  | [x], k, hk => by simp [argminFirst] at hk
  | x :: y :: ys, k, hk => by
      by_cases hx : x ≤ listMin (y :: ys)
      · simp [argminFirst, hx] at hk
      · push_neg at hx
        have hmin : listMin (x :: y :: ys) = listMin (y :: ys) := by
          simp [listMin, min_eq_right (le_of_lt hx)]
        cases k with
        | zero => simpa [hmin] using hx
        | succ k =>
            have hk2 : k < argminFirst (y :: ys) := by
              simp only [argminFirst, if_neg (not_le.mpr hx)] at hk
              omega
            have ih := listMin_lt_getD_of_lt_argmin (y :: ys) k hk2
            simpa [hmin] using ih

theorem recognizeOne_fields (d : Emb → Emb → ℚ) (st : EngineState) (i : ℕ) (q : Emb)
    (loc : Loc) :
    (recognizeOne d st i q loc).1.total_attempts = st.total_attempts
    ∧ (recognizeOne d st i q loc).1.processing_times = st.processing_times
    ∧ (recognizeOne d st i q loc).1.current_model = st.current_model
    ∧ (recognizeOne d st i q loc).1.successful_recognitions
        = st.successful_recognitions
          + (if (recognizeOne d st i q loc).2.recognized then 1 else 0)
    ∧ (recognizeOne d st i q loc).1.confidence_scores.length
        = st.confidence_scores.length
          + (if (recognizeOne d st i q loc).2.recognized then 1 else 0) := by
  unfold recognizeOne
  by_cases h1 : st.known_encodings.length > 0
  · by_cases h2 : best_distance d st q ≤ st.face_distance_threshold
        ∧ 1 - best_distance d st q ≥ st.confidence_threshold
    · simp [h1, h2]
    · simp [h1, h2, defaultResult]
  · simp [h1, defaultResult]

theorem processFaces_fields (d : Emb → Emb → ℚ) :
    ∀ (faces : List (Emb × Loc)) (st : EngineState) (i : ℕ),
      (processFaces d st i faces).1.total_attempts = st.total_attempts
      ∧ (processFaces d st i faces).1.processing_times = st.processing_times
      ∧ (processFaces d st i faces).1.current_model = st.current_model
      ∧ (processFaces d st i faces).1.successful_recognitions
          = st.successful_recognitions
            + ((processFaces d st i faces).2.countP (fun r => r.recognized))
      ∧ (processFaces d st i faces).1.confidence_scores.length
          = st.confidence_scores.length
            + ((processFaces d st i faces).2.countP (fun r => r.recognized))
      ∧ (processFaces d st i faces).2.length = faces.length
  | [], st, i => by simp [processFaces]
  | (q, loc) :: rest, st, i => by
      have hone := recognizeOne_fields d st i q loc
      have ih := processFaces_fields d rest (recognizeOne d st i q loc).1 (i + 1)
      simp only [processFaces, List.countP_cons, List.length_cons]
      refine ⟨by rw [ih.1, hone.1], by rw [ih.2.1, hone.2.1], by rw [ih.2.2.1, hone.2.2.1],
        ?_, ?_, by rw [ih.2.2.2.2.2]⟩
      · rw [ih.2.2.2.1, hone.2.2.2.1]; omega
      · rw [ih.2.2.2.2.1, hone.2.2.2.2]; omega

theorem metaRows_map_fst (info : Student) (roll : String) :
    ∀ (i : ℕ) (l : List Emb), (metaRows info roll i l).map (fun r => r.1) = l
  | _, [] => rfl
  | i, _ :: es => by simp [metaRows, metaRows_map_fst info roll (i + 1) es]

theorem mem_metaRows (info : Student) (roll : String) :
    ∀ (i : ℕ) (l : List Emb) (r : Emb × String × String × FaceMeta),
      r ∈ metaRows info roll i l →
      r.2.1 = info.name ∧ r.2.2.1 = roll
      ∧ r.2.2.2.registration_date = info.registration_date.getD "unknown"
      ∧ r.2.2.2.role = info.role.getD "student"
  | i, [], r, hr => by simp [metaRows] at hr
  | i, e :: es, r, hr => by
      rw [metaRows] at hr
      rcases List.mem_cons.mp hr with h | h
      · subst h; simp
      · exact mem_metaRows info roll (i + 1) es r h

theorem mem_loadEntries (students : List (String × Student)) :
    ∀ (enc : List (String × List Emb)) (r : Emb × String × String × FaceMeta),
      r ∈ loadEntries students enc →
      ∃ info, lookupStudent students r.2.2.1 = some info ∧ r.2.1 = info.name
        ∧ r.2.2.2.registration_date = info.registration_date.getD "unknown"
        ∧ r.2.2.2.role = info.role.getD "student"
  | [], r, hr => by simp [loadEntries] at hr
  | (roll, lst) :: rest, r, hr => by
      rw [loadEntries] at hr
      rcases List.mem_append.mp hr with h | h
      · cases hls : lookupStudent students roll with
        | none => rw [hls] at h; simp at h
        | some info =>
            rw [hls] at h
            have hm := mem_metaRows info roll 0 lst r h
            refine ⟨info, ?_, hm.1, hm.2.2⟩
            rw [hm.2.1]; exact hls
      · exact mem_loadEntries students rest r h

theorem loadEntries_map_fst (students : List (String × Student)) :
    ∀ (enc : List (String × List Emb)),
      (loadEntries students enc).map (fun r => r.1)
        = (enc.map (fun p => if (lookupStudent students p.1).isSome then p.2 else [])).flatten
  | [] => rfl
  | (roll, lst) :: rest => by
      simp only [loadEntries, List.map_append, List.map_cons, List.flatten_cons,
        loadEntries_map_fst students rest]
      congr 1
      cases hls : lookupStudent students roll with
      | none => simp [hls]
      | some info => simp [hls, metaRows_map_fst]

/-! ### Claim theorems -/

/-- C1: for every query embedding matched against a non-empty store, the
matcher computes the distance to every stored embedding
(`face_distances`), selects the candidate of minimum distance with the
first occurrence winning ties (`best_match_index`), sets confidence to one
minus the minimum distance, and returns a match exactly when both
`best_distance ≤ distance_threshold` and `confidence ≥
confidence_threshold`; when the gates do not both pass the result keeps
its unmatched defaults, so the identity of the best candidate is never
surfaced as a match. -/
theorem C1_matcher (d : Emb → Emb → ℚ) (st : EngineState) (i : ℕ) (q : Emb) (loc : Loc)
    (h : st.known_encodings ≠ []) :
    best_match_index d st q < (face_distances d st q).length
    ∧ best_distance d st q = listMin (face_distances d st q)
    ∧ (∀ k, k < (face_distances d st q).length →
        best_distance d st q ≤ (face_distances d st q).getD k 0)
    ∧ (∀ k, k < best_match_index d st q →
        best_distance d st q < (face_distances d st q).getD k 0)
    ∧ ((recognizeOne d st i q loc).2.recognized = true ↔
        (best_distance d st q ≤ st.face_distance_threshold
          ∧ st.confidence_threshold ≤ 1 - best_distance d st q))
    ∧ ((recognizeOne d st i q loc).2.recognized = true →
        (recognizeOne d st i q loc).2.name = st.known_names.getD (best_match_index d st q) ""
        ∧ (recognizeOne d st i q loc).2.roll_number
            = some (st.known_rolls.getD (best_match_index d st q) "")
        ∧ (recognizeOne d st i q loc).2.confidence = 1 - best_distance d st q
        ∧ (recognizeOne d st i q loc).2.distance = (best_distance d st q : WithTop ℚ))
    ∧ ((recognizeOne d st i q loc).2.recognized = false →
        (recognizeOne d st i q loc).2 = defaultResult i loc) := by
  have hds : face_distances d st q ≠ [] := by
    simp [face_distances, h]
  have hlen : st.known_encodings.length > 0 := List.length_pos.mpr h
  have hbd : best_distance d st q = listMin (face_distances d st q) :=
    getD_argminFirst _ hds
  refine ⟨argminFirst_lt_length _ hds, hbd, ?_, ?_, ?_, ?_, ?_⟩
  · intro k hk
    rw [hbd]
    exact listMin_le_getD _ k hk
  · intro k hk
    rw [hbd]
    exact listMin_lt_getD_of_lt_argmin _ k hk
  · unfold recognizeOne
    rw [if_pos hlen]
    by_cases hg : best_distance d st q ≤ st.face_distance_threshold
        ∧ 1 - best_distance d st q ≥ st.confidence_threshold
    · simp only [if_pos hg]
      simpa using hg
    · simp only [if_neg hg, ge_iff_le] at *
      simp [defaultResult, hg]
  · unfold recognizeOne
    rw [if_pos hlen]
    by_cases hg : best_distance d st q ≤ st.face_distance_threshold
        ∧ 1 - best_distance d st q ≥ st.confidence_threshold
    · simp [if_pos hg]
    · simp [if_neg hg, defaultResult]
  · unfold recognizeOne
    rw [if_pos hlen]
    by_cases hg : best_distance d st q ≤ st.face_distance_threshold
        ∧ 1 - best_distance d st q ≥ st.confidence_threshold
    · simp [if_pos hg]
    · simp [if_neg hg]

/-- Witness for C1: against the concrete two-entry store `stMatch`, the
query `[1]` is accepted and matched to the second entry. -/
theorem C1_matcher_witness :
    (recognizeOne dSq stMatch 0 [1] locW).2.recognized = true
    ∧ (recognizeOne dSq stMatch 0 [1] locW).2.name = "B"
    ∧ (recognizeOne dSq stMatch 0 [1] locW).2.roll_number = some "2" := by
  have h := C1_matcher dSq stMatch 0 [1] locW (by simp [stMatch, initState])
  have hb : best_match_index dSq stMatch [1] = 1 := by
    norm_num [best_match_index, face_distances, argminFirst, listMin, dSq, stMatch, initState]
  have hbd : best_distance dSq stMatch [1] = 0 := by
    norm_num [best_distance, best_match_index, face_distances, argminFirst, listMin,
      dSq, stMatch, initState]
  have hrec : (recognizeOne dSq stMatch 0 [1] locW).2.recognized = true := by
    refine h.2.2.2.2.1.mpr ⟨?_, ?_⟩
    · rw [hbd]; norm_num [stMatch, initState]
    · rw [hbd]; norm_num [stMatch, initState]
  have hf := h.2.2.2.2.2.1 hrec
  refine ⟨hrec, ?_, ?_⟩
  · rw [hf.1, hb]; rfl
  · rw [hf.2.1, hb]; rfl

/-- C4: matching a query against an empty store returns the unmatched
default result: not recognized, name Unknown, no roll number, distance
infinity; the engine state is unchanged. -/
theorem C4_empty_store (d : Emb → Emb → ℚ) (st : EngineState) (i : ℕ) (q : Emb) (loc : Loc)
    (h : st.known_encodings = []) :
    recognizeOne d st i q loc = (st, defaultResult i loc)
    ∧ (defaultResult i loc).recognized = false
    ∧ (defaultResult i loc).distance = ⊤
    ∧ (defaultResult i loc).name = "Unknown"
    ∧ (defaultResult i loc).roll_number = none := by
  unfold recognizeOne
  rw [h]
  simp [defaultResult]

/-- Witness for C4 at the freshly initialised engine, whose store is
empty. -/
theorem C4_empty_store_witness :
    recognizeOne dSq initState 0 [1] locW = (initState, defaultResult 0 locW)
    ∧ (defaultResult 0 locW).recognized = false
    ∧ (defaultResult 0 locW).distance = ⊤ := by
  have h := C4_empty_store dSq initState 0 [1] locW rfl
  exact ⟨h.1, h.2.1, h.2.2.1⟩

/-- C2: whenever calibration runs on a store with at least 5 embeddings
and both computed distance lists are non-empty, the new distance threshold
is `clamp(mean_intra + 2·std_intra, 0.3, 0.6)` (with the 0.1 fallback for
fewer than 2 intra-class samples), the new confidence threshold is
`1 - distance_threshold - 0.1`, and the distance threshold lies in
`[0.3, 0.6]`. -/
theorem C2_calibration (sdev : List ℚ → ℚ) (d : Emb → Emb → ℚ) (st : EngineState)
    (h5 : 5 ≤ st.known_encodings.length)
    (hintra : intraDistances d st ≠ [])
    (hinter : interDistances d st ≠ []) :
    (auto_calibrate sdev d st).2 = CalibOutcome.calibrated
    ∧ (auto_calibrate sdev d st).1.face_distance_threshold
        = max (3/10) (min (6/10) (listMean (intraDistances d st)
            + 2 * (if (intraDistances d st).length > 1 then sdev (intraDistances d st)
                   else 1/10)))
    ∧ (auto_calibrate sdev d st).1.confidence_threshold
        = 1 - (auto_calibrate sdev d st).1.face_distance_threshold - 1/10
    ∧ 3/10 ≤ (auto_calibrate sdev d st).1.face_distance_threshold
    ∧ (auto_calibrate sdev d st).1.face_distance_threshold ≤ 6/10 := by
  have hlt : ¬ st.known_encodings.length < 5 := not_lt.mpr h5
  simp only [auto_calibrate, if_neg hlt, ne_eq]
  rw [if_pos ⟨hintra, hinter⟩]
  refine ⟨rfl, rfl, rfl, le_max_left _ _, max_le (by norm_num) (min_le_left _ _)⟩

/-- Witness for C2 at the concrete five-encoding store `stCal` with
constant distance 1: the calibrated thresholds are 0.6 and 0.3. -/
theorem C2_calibration_witness :
    (auto_calibrate sdevZ dOne stCal).2 = CalibOutcome.calibrated
    ∧ (auto_calibrate sdevZ dOne stCal).1.face_distance_threshold = 3/5
    ∧ (auto_calibrate sdevZ dOne stCal).1.confidence_threshold = 3/10 := by
  have hintra : intraDistances dOne stCal = [1, 1, 1, 1] := by
    simp [intraDistances, groupByRoll, insertEnc, pairsUpper, stCal, initState, dOne]
  have hinter : interDistances dOne stCal = [1, 1, 1, 1] := by
    simp [interDistances, groupByRoll, insertEnc, pairsUpper, stCal, initState, dOne]
  have h := C2_calibration sdevZ dOne stCal (by simp [stCal, initState])
    (by rw [hintra]; simp) (by rw [hinter]; simp)
  have hthr : (auto_calibrate sdevZ dOne stCal).1.face_distance_threshold = 3/5 := by
    rw [h.2.1, hintra]
    norm_num [listMean, sdevZ]
  refine ⟨h.1, hthr, ?_⟩
  rw [h.2.2.1, hthr]
  norm_num

/-- C3: calibration with fewer than 5 embeddings, or with an empty
intra-class or inter-class distance list, ends as InsufficientData and
leaves the whole engine state, in particular both thresholds, exactly as
it was. -/
theorem C3_calibration_no_change (sdev : List ℚ → ℚ) (d : Emb → Emb → ℚ) (st : EngineState)
    (h : st.known_encodings.length < 5 ∨ intraDistances d st = [] ∨ interDistances d st = []) :
    auto_calibrate sdev d st = (st, CalibOutcome.insufficientData) := by
  by_cases h5 : st.known_encodings.length < 5
  · simp only [auto_calibrate, if_pos h5]
  · have hcond : ¬ (intraDistances d st ≠ [] ∧ interDistances d st ≠ []) := by
      rcases h with h | h | h
      · exact absurd h h5
      · exact fun hc => hc.1 h
      · exact fun hc => hc.2 h
    simp only [auto_calibrate, if_neg h5, ne_eq]
    rw [if_neg hcond]

/-- Witness for C3 at the freshly initialised engine (0 embeddings): the
call returns InsufficientData and the state is untouched. -/
theorem C3_calibration_no_change_witness :
    auto_calibrate sdevZ dOne initState = (initState, CalibOutcome.insufficientData) :=
  C3_calibration_no_change sdevZ dOne initState (Or.inl (by simp [initState]))

/-- C5 counterexample: the claim asserts that evaluation already happens
when at least 10 latency samples exist.  With exactly 10 samples averaging
0.6s, at attempt 100 and in Accurate (cnn) mode, the claim predicts a
transition to Fast (hog), but the code requires strictly more than 10
samples and leaves the mode unchanged. -/
theorem C5_counterexample :
    ¬ (∀ (n : ℕ) (st : EngineState),
        n % 100 = 0 → 10 ≤ st.processing_times.length →
        1/2 < listMean (lastN 10 st.processing_times) → st.current_model = "cnn" →
        (adaptive_model_selection n st).current_model = "hog") := by
  intro hclaim
  have h1 := hclaim 100 stTen rfl (by norm_num [stTen, initState])
    (by norm_num [stTen, initState, listMean, lastN]) rfl
  have h2 : (adaptive_model_selection 100 stTen).current_model = "cnn" := by
    have hlen : stTen.processing_times.length = 10 := by simp [stTen, initState]
    simp only [adaptive_model_selection, hlen]
    norm_num
    rfl
  rw [h2] at h1
  exact absurd h1 (by decide)

/-- C5 amended: the selector evaluates only at attempts that are
multiples of 100 and only when strictly more than 10 latency samples
exist; at such a checkpoint the average of the last 10 latencies drives
the Accurate-to-Fast (above 0.5s) and Fast-to-Accurate (below 0.2s)
transitions, the hysteresis band [0.2s, 0.5s] leaves the mode unchanged,
and every non-checkpoint attempt leaves the state unchanged. -/
theorem C5_adaptive (n : ℕ) (st : EngineState) :
    (¬ (n % 100 = 0 ∧ 10 < st.processing_times.length) →
        adaptive_model_selection n st = st)
    ∧ (n % 100 = 0 → 10 < st.processing_times.length →
        1/2 < listMean (lastN 10 st.processing_times) → st.current_model = "cnn" →
        adaptive_model_selection n st = { st with current_model := "hog" })
    ∧ (n % 100 = 0 → 10 < st.processing_times.length →
        listMean (lastN 10 st.processing_times) < 1/5 → st.current_model = "hog" →
        adaptive_model_selection n st = { st with current_model := "cnn" })
    ∧ (n % 100 = 0 → 10 < st.processing_times.length →
        1/5 ≤ listMean (lastN 10 st.processing_times) →
        listMean (lastN 10 st.processing_times) ≤ 1/2 →
        adaptive_model_selection n st = st) := by
  refine ⟨?_, ?_, ?_, ?_⟩
  · intro h
    simp only [adaptive_model_selection, if_neg h]
  · intro h1 h2 h3 h4
    simp only [adaptive_model_selection, if_pos (And.intro h1 h2)]
    rw [if_pos ⟨h3, by simp [h4]⟩]
  · intro h1 h2 h3 h4
    simp only [adaptive_model_selection, if_pos (And.intro h1 h2)]
    have hno : ¬ (1/2 < listMean (lastN 10 st.processing_times)
        ∧ (st.current_model == "cnn") = true) := by
      intro hc
      rw [h4] at hc
      exact absurd hc.2 (by decide)
    rw [if_neg hno, if_pos ⟨h3, by simp [h4]⟩]
  · intro h1 h2 h3 h4
    simp only [adaptive_model_selection, if_pos (And.intro h1 h2)]
    have hno1 : ¬ (1/2 < listMean (lastN 10 st.processing_times)
        ∧ (st.current_model == "cnn") = true) := by
      intro hc
      exact absurd h4 (not_le.mpr hc.1)
    have hno2 : ¬ (listMean (lastN 10 st.processing_times) < 1/5
        ∧ (st.current_model == "hog") = true) := by
      intro hc
      exact absurd h3 (not_le.mpr hc.1)
    rw [if_neg hno1, if_neg hno2]

/-- Witness for C5 amended: with 11 samples averaging 0.6s at attempt
100 in cnn mode, the selector switches to hog. -/
theorem C5_adaptive_witness :
    adaptive_model_selection 100 stEleven = { stEleven with current_model := "hog" } :=
  (C5_adaptive 100 stEleven).2.1 rfl (by norm_num [stEleven, initState])
    (by norm_num [stEleven, initState, listMean, lastN]) rfl

/-- C6 counterexample: the claim asserts that embeddings whose length
differs from the store dimension are skipped during loading, which would
force all retained embeddings to share one length.  Loading a roll that
owns a length-3 and a length-2 embedding retains both, so no store
dimension exists. -/
theorem C6_counterexample :
    ¬ (∀ (enc : List (String × List Emb)) (students : List (String × Student))
        (st : EngineState), ∃ dim : ℕ,
        ∀ e ∈ (load_encodings enc students st).known_encodings, e.length = dim) := by
  intro hclaim
  obtain ⟨dim, hD⟩ := hclaim encMix studentsMix initState
  have he : (load_encodings encMix studentsMix initState).known_encodings
      = [[1, 2, 3], [4, 5]] := by
    simp [load_encodings, loadEntries, metaRows, lookupStudent, encMix, studentsMix]
  have h1 := hD [1, 2, 3] (by rw [he]; simp)
  have h2 := hD [4, 5] (by rw [he]; simp)
  simp at h1 h2
  omega

/-- C6 amended: `load_encodings` performs no dimension check at all:
every embedding listed under a roll that is present in the students data
is retained, whatever its vector length, and every entry of the load is
processed (entries of unregistered rolls contribute nothing, and the load
is never aborted by a malformed embedding). -/
theorem C6_no_dimension_check (enc : List (String × List Emb))
    (students : List (String × Student)) (st : EngineState) :
    (load_encodings enc students st).known_encodings
      = (enc.map (fun p => if (lookupStudent students p.1).isSome then p.2 else [])).flatten := by
  simp [load_encodings, loadEntries_map_fst]

/-- C10: after a load, the four parallel store lists have equal length;
every stored roll has a matching student entry (encodings of unregistered
rolls are dropped); entry `i` of the name and metadata lists is derived
from the student record of entry `i` of the roll list; and the error path
clears all four lists (which are then trivially of equal length). -/
theorem C10_parallel_store :
    (∀ (enc : List (String × List Emb)) (students : List (String × Student))
        (st : EngineState),
      (load_encodings enc students st).known_names.length
          = (load_encodings enc students st).known_encodings.length
      ∧ (load_encodings enc students st).known_rolls.length
          = (load_encodings enc students st).known_encodings.length
      ∧ (load_encodings enc students st).known_metadata.length
          = (load_encodings enc students st).known_encodings.length)
    ∧ (∀ (enc : List (String × List Emb)) (students : List (String × Student))
        (st : EngineState) (roll : String),
        roll ∈ (load_encodings enc students st).known_rolls →
        (lookupStudent students roll).isSome = true)
    ∧ (∀ (enc : List (String × List Emb)) (students : List (String × Student))
        (st : EngineState) (i : ℕ),
        i < (load_encodings enc students st).known_encodings.length →
        ∃ info, lookupStudent students ((load_encodings enc students st).known_rolls.getD i "")
            = some info
          ∧ (load_encodings enc students st).known_names.getD i "" = info.name
          ∧ ((load_encodings enc students st).known_metadata.getD i default).registration_date
              = info.registration_date.getD "unknown"
          ∧ ((load_encodings enc students st).known_metadata.getD i default).role
              = info.role.getD "student")
    ∧ (∀ st : EngineState, (errorLoadState st).known_encodings = []
        ∧ (errorLoadState st).known_names = []
        ∧ (errorLoadState st).known_rolls = []
        ∧ (errorLoadState st).known_metadata = []) := by
  refine ⟨?_, ?_, ?_, ?_⟩
  · intro enc students st
    simp [load_encodings]
  · intro enc students st roll hmem
    simp only [load_encodings, List.mem_map] at hmem
    obtain ⟨r, hr, hproj⟩ := hmem
    obtain ⟨info, hinfo, -⟩ := mem_loadEntries students enc r hr
    rw [← hproj, hinfo]
    rfl
  · intro enc students st i hi
    have hi2 : i < (loadEntries students enc).length := by
      simpa [load_encodings] using hi
    obtain ⟨info, hinfo, hname, hreg, hrole⟩ :=
      mem_loadEntries students enc ((loadEntries students enc).get ⟨i, hi2⟩)
        (List.get_mem _ i hi2)
    refine ⟨info, ?_, ?_, ?_, ?_⟩
    · have : (load_encodings enc students st).known_rolls.getD i ""
          = ((loadEntries students enc).get ⟨i, hi2⟩).2.2.1 := by
        simp [load_encodings, List.getD_eq_getElem, hi2]
      rw [this]
      exact hinfo
    · have : (load_encodings enc students st).known_names.getD i ""
          = ((loadEntries students enc).get ⟨i, hi2⟩).2.1 := by
        simp [load_encodings, List.getD_eq_getElem, hi2]
      rw [this]
      exact hname
    · have : (load_encodings enc students st).known_metadata.getD i default
          = ((loadEntries students enc).get ⟨i, hi2⟩).2.2.2 := by
        simp [load_encodings, List.getD_eq_getElem, hi2]
      rw [this]
      exact hreg
    · have : (load_encodings enc students st).known_metadata.getD i default
          = ((loadEntries students enc).get ⟨i, hi2⟩).2.2.2 := by
        simp [load_encodings, List.getD_eq_getElem, hi2]
      rw [this]
      exact hrole
  · intro st
    exact ⟨rfl, rfl, rfl, rfl⟩

/-- Witness for C10 at a concrete load with one registered and one
unregistered roll. -/
theorem C10_parallel_store_witness :
    (lookupStudent studentsW "1").isSome = true
    ∧ (load_encodings encW studentsW initState).known_names.length
        = (load_encodings encW studentsW initState).known_encodings.length := by
  constructor
  · refine C10_parallel_store.2.1 encW studentsW initState "1" ?_
    simp [load_encodings, loadEntries, metaRows, lookupStudent, encW, studentsW]
  · exact (C10_parallel_store.1 encW studentsW initState).1

/-- C7 counterexample: the claim asserts that every matching call appends
exactly one latency sample regardless of outcome; a call in which no face
is detected returns early and appends none. -/
theorem C7_counterexample :
    ¬ (∀ (st : EngineState) (faces : List (Emb × Loc)) (e : ℚ),
        (recognize_faces dSq st faces e).1.processing_times
          = st.processing_times ++ [e]) := by
  intro hclaim
  have h := hclaim initState [] 1
  have h0 : (recognize_faces dSq initState [] 1).1.processing_times = [] := by
    simp [recognize_faces, initState]
  rw [h0] at h
  simp [initState] at h

/-- C7 amended: every matching call increments the attempts counter by
exactly one; a latency sample is appended exactly when at least one face
was detected (a zero-face call returns early, changing nothing but the
attempts counter); successes and confidence samples grow only by the
number of accepted faces; and recognition_rate is successes over attempts,
equal to 0 when attempts is 0 (division never occurs then). -/
theorem C7_stats_per_call (d : Emb → Emb → ℚ) (st : EngineState)
    (faces : List (Emb × Loc)) (e : ℚ) :
    (recognize_faces d st faces e).1.total_attempts = st.total_attempts + 1
    ∧ (faces = [] →
        recognize_faces d st faces e
          = ({ st with total_attempts := st.total_attempts + 1 }, []))
    ∧ (faces ≠ [] →
        (recognize_faces d st faces e).1.processing_times = st.processing_times ++ [e])
    ∧ (recognize_faces d st faces e).1.successful_recognitions
        = st.successful_recognitions
          + ((recognize_faces d st faces e).2.countP (fun r => r.recognized))
    ∧ (recognize_faces d st faces e).1.confidence_scores.length
        = st.confidence_scores.length
          + ((recognize_faces d st faces e).2.countP (fun r => r.recognized))
    ∧ recognition_rate st = (st.successful_recognitions : ℚ) / (st.total_attempts : ℚ)
    ∧ (st.total_attempts = 0 → recognition_rate st = 0) := by
  have hrate : recognition_rate st
      = (st.successful_recognitions : ℚ) / (st.total_attempts : ℚ) := by
    unfold recognition_rate
    by_cases h0 : st.total_attempts > 0
    · rw [if_pos h0]
    · rw [if_neg h0]
      have : st.total_attempts = 0 := by omega
      rw [this]
      norm_num
  have hrate0 : st.total_attempts = 0 → recognition_rate st = 0 := by
    intro h0
    simp [recognition_rate, h0]
  by_cases hf : faces = []
  · subst hf
    refine ⟨rfl, fun _ => rfl, fun hne => absurd rfl hne, ?_, ?_, hrate, hrate0⟩ <;>
      simp [recognize_faces]
  · have hp := processFaces_fields d faces { st with total_attempts := st.total_attempts + 1 } 0
    have hunf : recognize_faces d st faces e
        = ({ (processFaces d { st with total_attempts := st.total_attempts + 1 } 0 faces).1
              with processing_times :=
                (processFaces d { st with total_attempts := st.total_attempts + 1 } 0
                  faces).1.processing_times ++ [e] },
           (processFaces d { st with total_attempts := st.total_attempts + 1 } 0 faces).2) := by
      simp only [recognize_faces, if_neg hf]
    refine ⟨?_, fun habs => absurd habs hf, fun _ => ?_, ?_, ?_, hrate, hrate0⟩
    · rw [hunf]
      exact hp.1
    · rw [hunf]
      simp only [hp.2.1]
    · rw [hunf]
      exact hp.2.2.2.1
    · rw [hunf]
      simpa using hp.2.2.2.2.1
  
/-- Witness for C7 amended: a one-face call on the fresh engine appends
its latency sample. -/
theorem C7_stats_per_call_witness :
    (recognize_faces dSq initState [([0], locW)] 1).1.processing_times
      = initState.processing_times ++ [(1 : ℚ)] :=
  (C7_stats_per_call dSq initState [([0], locW)] 1).2.2.1 (by simp)

/-- C8 counterexample: the claim asserts the issues list contains the
string "empty region"; the code issues the string "Empty face region"
instead, so on a zero-height crop the claimed membership fails. -/
theorem C8_counterexample :
    ¬ (∀ (bv br : ℚ) (imgH imgW : ℕ) (loc : Loc),
        (cropH imgH loc.top loc.bottom = 0 ∨ cropW imgW loc.left loc.right = 0) →
        "empty region" ∈ (assess_image_quality bv br imgH imgW loc).issues) := by
  intro hclaim
  have h := hclaim 0 0 100 100 { top := 0, right := 5, bottom := 0, left := 0 }
    (Or.inl (by decide))
  have heval : assess_image_quality 0 0 100 100 { top := 0, right := 5, bottom := 0, left := 0 }
      = { overall_score := 0, metrics := none, issues := ["Empty face region"] } := by
    simp [assess_image_quality, cropH, cropW]
  rw [heval] at h
  simp at h

/-- C8 amended: on a face region whose crop is empty (zero width or zero
height), the quality assessor returns overall score 0 with the single
issue "Empty face region" and no metrics entry (size, blur, brightness
and orientation are all skipped). -/
theorem C8_empty_region (bv br : ℚ) (imgH imgW : ℕ) (loc : Loc)
    (h : cropH imgH loc.top loc.bottom = 0 ∨ cropW imgW loc.left loc.right = 0) :
    assess_image_quality bv br imgH imgW loc
      = { overall_score := 0, metrics := none, issues := ["Empty face region"] } := by
  have hz : cropH imgH loc.top loc.bottom * cropW imgW loc.left loc.right = 0 := by
    rcases h with h | h <;> simp [h]
  simp only [assess_image_quality, hz, if_pos]

/-- Witness for C8 amended at a concrete zero-height box. -/
theorem C8_empty_region_witness :
    assess_image_quality 0 0 100 100 { top := 0, right := 5, bottom := 0, left := 0 }
      = { overall_score := 0, metrics := none, issues := ["Empty face region"] } :=
  C8_empty_region 0 0 100 100 { top := 0, right := 5, bottom := 0, left := 0 }
    (Or.inl (by decide))

/-- C9: one recognition call increments the attempts counter by exactly
one while incrementing the success counter once per accepted face, so a
frame with two accepted faces yields successes 2 over attempts 1 and a
recognition_rate of 2, exceeding 1. -/
theorem C9_rate_can_exceed_one :
    (∀ (d : Emb → Emb → ℚ) (st : EngineState) (faces : List (Emb × Loc)) (e : ℚ),
      (recognize_faces d st faces e).1.total_attempts = st.total_attempts + 1
      ∧ (recognize_faces d st faces e).1.successful_recognitions
          = st.successful_recognitions
            + ((recognize_faces d st faces e).2.countP (fun r => r.recognized)))
    ∧ (recognize_faces dZero stSingle [([0], locW), ([0], locW)] 1).1.total_attempts = 1
    ∧ (recognize_faces dZero stSingle [([0], locW), ([0], locW)] 1).1.successful_recognitions
        = 2
    ∧ recognition_rate (recognize_faces dZero stSingle [([0], locW), ([0], locW)] 1).1 = 2
    ∧ (1 : ℚ) < 2 := by
  have hgen : ∀ (d : Emb → Emb → ℚ) (st : EngineState) (faces : List (Emb × Loc)) (e : ℚ),
      (recognize_faces d st faces e).1.total_attempts = st.total_attempts + 1
      ∧ (recognize_faces d st faces e).1.successful_recognitions
          = st.successful_recognitions
            + ((recognize_faces d st faces e).2.countP (fun r => r.recognized)) := by
    intro d st faces e
    have hp := processFaces_fields d faces { st with total_attempts := st.total_attempts + 1 } 0
    by_cases hf : faces = []
    · subst hf
      exact ⟨rfl, by simp [recognize_faces]⟩
    · constructor
      · simp only [recognize_faces, if_neg hf]
        exact hp.1
      · simp only [recognize_faces, if_neg hf]
        exact hp.2.2.2.1
  have hne : ¬ ([([0], locW), ([0], locW)] : List (Emb × Loc)) = [] := by simp
  have hcount : ((recognize_faces dZero stSingle [([0], locW), ([0], locW)] 1).2.countP
      (fun r => r.recognized)) = 2 := by
    simp only [recognize_faces, if_neg hne]
    norm_num [processFaces, recognizeOne, best_distance, best_match_index,
      face_distances, argminFirst, listMin, dZero, stSingle, initState,
      List.countP_cons, List.countP_nil]
  have ha : (recognize_faces dZero stSingle [([0], locW), ([0], locW)] 1).1.total_attempts
      = 1 := by
    rw [(hgen dZero stSingle [([0], locW), ([0], locW)] 1).1]
    rfl
  have hs : (recognize_faces dZero stSingle [([0], locW), ([0], locW)] 1).1.successful_recognitions
      = 2 := by
    rw [(hgen dZero stSingle [([0], locW), ([0], locW)] 1).2, hcount]
    rfl
  refine ⟨hgen, ha, hs, ?_, by norm_num⟩
  simp only [recognition_rate, ha, hs]
  norm_num
